import Mathlib

/-!
Verification of the solid-forms control-state engine.

The definitions below are a shallow embedding of the library's core modules:

* `abstract-control-base.ts` — the partitioned self-state store
  (`markX`, `setErrors`, `patchErrors`, `setValidators`, `composeValidators`);
* `abstract-control-container-base.ts` — the container aggregation memos
  (`childrenAreValidMemo`, `childrenAreDisabledMemo`, …, `childrenErrorsMemo`,
  `errorsMemo`) and the container operations (`get`, `removeControl`,
  `setValue`, `patchValue`);
* `form-control.ts` / `form-group.ts` / `form-array.ts` — the leaf control and
  the two container variants (`rawValueMemo`/`valueMemo`, `setControl`).

JavaScript data is modelled as follows: plain objects and ES6 Maps are
association lists in insertion order (property assignment / `Map.set` replaces
in place or appends; `delete` / `Map.delete` removes); ES6 Sets are lists of
ids; the library's `isEqual` (fast-deep-equal/es6) is a Boolean structural
comparison that ignores key order and compares functions by reference.
Validator functions are modelled by reference identity (a `Nat` ref), with an
allocation counter standing for the fact that every evaluation of a JS arrow
function produces a fresh object distinct from all existing ones.
-/

namespace SolidForms

/-- Scalar JavaScript values used as leaf/raw values and as error payloads. -/
inductive JsVal where
  | vBool : Bool → JsVal
  | vNum : Int → JsVal
  | vStr : String → JsVal
deriving DecidableEq

/-- Object property keys and control ids / source ids. -/
abbrev Key := String

/-- Source ids partitioning the errors/pending/validator stores. -/
abbrev SourceId := String

/-- Default source id, `DEFAULT_SOURCE = 'CONTROL_DEFAULT_SOURCE'` in
`abstract-control-base.ts`. -/
def DEFAULT_SOURCE : SourceId := "CONTROL_DEFAULT_SOURCE"

/-- Property read `o[k]` on a JS object / `Map.get`: first (unique) matching
key, `none` for JS `undefined`. -/
def objLookup {α : Type} : List (Key × α) → Key → Option α
  | [], _ => none
  | (k0, v) :: rest, k => if k0 = k then some v else objLookup rest k

/-- Property write `o[k] = v` on a JS object / `Map.set`: replaces the entry
in place when the key is present (keys are unique, so replacing the first
occurrence suffices), otherwise appends it. -/
def objSet {α : Type} : List (Key × α) → Key → α → List (Key × α)
  | [], k, v => [(k, v)]
  | (k0, v0) :: rest, k, v =>
    if k0 = k then (k, v) :: rest else (k0, v0) :: objSet rest k v

/-- Property removal `delete o[k]` / `Map.delete(k)`. -/
def objDelete {α : Type} (o : List (Key × α)) (k : Key) : List (Key × α) :=
  o.filter (fun kv => kv.1 ≠ k)

/-- Spread merge `{ ...a, ...b }` (also `new Map([...a, ...b])`): entries of
`b` override same-keyed entries of `a` in place, new keys are appended. -/
def jsSpreadMerge {α : Type} (a b : List (Key × α)) : List (Key × α) :=
  b.foldl (fun acc kv => objSet acc kv.1 kv.2) a

/-- Keyed-collection comparison of fast-deep-equal/es6 (the library's
`isEqual`): both directions of key containment with values compared by `veq`;
key order is irrelevant. -/
def assocEqBy {α : Type} (veq : α → α → Bool) (a b : List (Key × α)) : Bool :=
  (a.all fun kv =>
    match objLookup b kv.1 with
    | some w => veq kv.2 w
    | none => false) &&
  (b.all fun kv =>
    match objLookup a kv.1 with
    | some w => veq w kv.2
    | none => false)

/-- Value stored under one key of a `ValidationErrors` object; `none` models
the JS value `null`. -/
abbrev ErrVal := Option JsVal

/-- A `ValidationErrors` object: string keys to arbitrary values. -/
abbrev ErrObj := List (Key × ErrVal)

/-- The `errorsStore`: an ES6 Map from source id to `ValidationErrors`. -/
abbrev ErrorsStore := List (SourceId × ErrObj)

/-- fast-deep-equal on two `ValidationErrors` objects. -/
def errObjEqb (a b : ErrObj) : Bool :=
  assocEqBy (fun x y => x = y) a b

/-- fast-deep-equal on two errors stores (Maps of error objects). -/
def storeEqb (a b : ErrorsStore) : Bool :=
  assocEqBy errObjEqb a b

/-- Reference to a validator function. JS compares functions with `===`;
distinct refs model distinct function objects. -/
abbrev VRef := Nat

/-- The `validatorStore`: an ES6 Map from source id to a validator function. -/
abbrev ValidatorStore := List (SourceId × VRef)

/-- fast-deep-equal on validator stores: function values are compared by
reference. -/
def vstoreEqb (a b : ValidatorStore) : Bool :=
  assocEqBy (fun x y => x = y) a b

/-- fast-deep-equal on pending stores (ES6 Sets of source ids): same
membership. -/
def pendingEqb (a b : List SourceId) : Bool :=
  (a.all fun s => b.contains s) && (b.all fun s => a.contains s)

/-- Self state of a control: the six plain booleans plus the three
source-partitioned stores, per the `self` object and the flat stores of
`createAbstractControlBase`. -/
structure SelfState where
  isDisabled : Bool
  isTouched : Bool
  isDirty : Bool
  isReadonly : Bool
  isSubmitted : Bool
  isRequired : Bool
  errorsStore : ErrorsStore
  pendingStore : List SourceId
  validatorStore : ValidatorStore
deriving DecidableEq

/-- Initial self state of a freshly constructed control (all flags false,
stores empty), per the literals in `createAbstractControlBase`. -/
def SelfState.init : SelfState :=
  { isDisabled := false, isTouched := false, isDirty := false
    isReadonly := false, isSubmitted := false, isRequired := false
    errorsStore := [], pendingStore := [], validatorStore := [] }

/-- Mutator `markDisabled(input)`: equality-guarded write of
`self.isDisabled`. -/
def markDisabled (s : SelfState) (input : Bool) : SelfState :=
  if s.isDisabled = input then s else { s with isDisabled := input }

/-- Mutator `markReadonly(input)`: equality-guarded write of
`self.isReadonly`. -/
def markReadonly (s : SelfState) (input : Bool) : SelfState :=
  if s.isReadonly = input then s else { s with isReadonly := input }

/-- Mutator `markRequired(input)`: equality-guarded write of
`self.isRequired`. -/
def markRequired (s : SelfState) (input : Bool) : SelfState :=
  if s.isRequired = input then s else { s with isRequired := input }

/-- Mutator `markDirty(input)`: equality-guarded write of `self.isDirty`. -/
def markDirty (s : SelfState) (input : Bool) : SelfState :=
  if s.isDirty = input then s else { s with isDirty := input }

/-- Mutator `markTouched(input)`: equality-guarded write of `self.isTouched`. -/
def markTouched (s : SelfState) (input : Bool) : SelfState :=
  if s.isTouched = input then s else { s with isTouched := input }

/-- Mutator `markSubmitted(input)`: equality-guarded write of
`self.isSubmitted`. -/
def markSubmitted (s : SelfState) (input : Bool) : SelfState :=
  if s.isSubmitted = input then s else { s with isSubmitted := input }

/-- Argument of `markPending`: a boolean or a whole Set of source ids. -/
inductive PendingInput where
  | bool : Bool → PendingInput
  | set : List SourceId → PendingInput

/-- Mutator `markPending(input, options)`: the boolean form toggles membership
of the source in `pendingStore` (a no-op when membership already matches); the
Set form replaces the store wholesale (the reference-identity early return
`this.pendingStore === input` never fires for a freshly supplied set). The
write is guarded by `isEqual`. -/
def markPending (s : SelfState) (input : PendingInput)
    (options : Option SourceId) : SelfState :=
  match input with
  | .bool input =>
    let source := options.getD DEFAULT_SOURCE
    if s.pendingStore.contains source = input then s
    else
      let newPendingStore :=
        if input then s.pendingStore ++ [source]
        else s.pendingStore.filter (fun x => x ≠ source)
      if pendingEqb s.pendingStore newPendingStore then s
      else { s with pendingStore := newPendingStore }
  | .set newSet =>
    if pendingEqb s.pendingStore newSet then s
    else { s with pendingStore := newSet }

/-- Argument of `setErrors`: a `ValidationErrors` object, the literal `null`,
or a whole partitioned Map. -/
inductive ErrorsInput where
  | errs : ErrObj → ErrorsInput
  | jnull : ErrorsInput
  | store : ErrorsStore → ErrorsInput

/-- Mutator `setErrors(input, options)`: a Map input replaces the store
wholesale; `null` or an empty object deletes the named source's partition;
a non-empty object replaces it. The write is guarded by `isEqual` on the
resulting store. -/
def setErrors (s : SelfState) (input : ErrorsInput) (options : Option SourceId) :
    SelfState :=
  let source := options.getD DEFAULT_SOURCE
  let newErrorsStore : ErrorsStore :=
    match input with
    | .store m => m
    | .jnull => objDelete s.errorsStore source
    | .errs e =>
      if e.isEmpty then objDelete s.errorsStore source
      else objSet s.errorsStore source e
  if storeEqb s.errorsStore newErrorsStore then s
  else { s with errorsStore := newErrorsStore }

/-- Argument of `patchErrors`: a `ValidationErrors` object whose `null`-valued
keys are deletion markers, or a whole partitioned Map. -/
inductive PatchErrorsInput where
  | errs : ErrObj → PatchErrorsInput
  | store : ErrorsStore → PatchErrorsInput

/-- Loop body of `patchErrors` over an existing partition: a key mapped to
`null` is deleted from the partition, any other key is assigned. -/
def patchErrorsApply (existingValue : ErrObj) (input : ErrObj) : ErrObj :=
  input.foldl
    (fun acc kv =>
      match kv.2 with
      | none => objDelete acc kv.1
      | some v => objSet acc kv.1 (some v))
    existingValue

/-- Common tail of `patchErrors`: an empty new partition is deleted from the
store, a non-empty one is stored; the write is guarded by `isEqual`. -/
def patchErrorsTail (s : SelfState) (newErrors : ErrObj) (source : SourceId) :
    SelfState :=
  let newErrorsStore :=
    if newErrors.isEmpty then objDelete s.errorsStore source
    else objSet s.errorsStore source newErrors
  if storeEqb s.errorsStore newErrorsStore then s
  else { s with errorsStore := newErrorsStore }

/-- Mutator `patchErrors(input, options)`: a Map input is spread-merged over
the store (no equality guard on that branch); an object input is merged into
the named source's partition, with `null` values deleting keys; when the
source has no partition the non-`null` entries become the new partition, and
an input empty after filtering is a no-op. -/
def patchErrors (s : SelfState) (input : PatchErrorsInput)
    (options : Option SourceId) : SelfState :=
  match input with
  | .store m => { s with errorsStore := jsSpreadMerge s.errorsStore m }
  | .errs input =>
    if input.isEmpty then s
    else
      let source := options.getD DEFAULT_SOURCE
      match objLookup s.errorsStore source with
      | some existingValue =>
        patchErrorsTail s (patchErrorsApply existingValue input) source
      | none =>
        let entries := input.filter (fun kv => !kv.2.isNone)
        if entries.isEmpty then s
        else patchErrorsTail s entries source

/-- Argument of `setValidators`: `null`, one validator function, an array of
validator functions, or a whole partitioned Map. -/
inductive ValidatorsInput where
  | vnull : ValidatorsInput
  | fn : VRef → ValidatorsInput
  | fnList : List VRef → ValidatorsInput
  | store : ValidatorStore → ValidatorsInput

/-- Helper `composeValidators(validators)`: `null` and the empty array give
`null`; a single function is returned as-is (same reference); a non-empty
array produces a NEW composed closure — modelled by allocating a fresh
function reference from the counter. -/
def composeValidatorsAlloc (counter : Nat) :
    ValidatorsInput → Option VRef × Nat
  | .vnull => (none, counter)
  | .fn f => (some f, counter)
  | .fnList [] => (none, counter)
  | .fnList _ => (some counter, counter + 1)
  | .store _ => (none, counter)

/-- Mutator `setValidators(input, options)`: a Map input replaces the store
wholesale (copied); otherwise the composed validator is stored under the
named source (or the source's entry is deleted when composition gives
`null`). The write is guarded by `isEqual`, which compares the stored
functions by reference. Returns the new state and allocation counter. -/
def setValidators (s : SelfState) (counter : Nat) (input : ValidatorsInput)
    (options : Option SourceId) : SelfState × Nat :=
  let source := options.getD DEFAULT_SOURCE
  match input with
  | .store m =>
    ((if vstoreEqb s.validatorStore m then s
      else { s with validatorStore := m }), counter)
  | other =>
    let res := composeValidatorsAlloc counter other
    let newValidatorsStore :=
      match res.1 with
      | some f => objSet s.validatorStore source f
      | none => objDelete s.validatorStore source
    ((if vstoreEqb s.validatorStore newValidatorsStore then s
      else { s with validatorStore := newValidatorsStore }), res.2)

/-- Observable state of one direct child control, as read by the container
aggregation memos of `abstract-control-container-base.ts`: the derived
boolean flags, the child's `errors`, and its `rawValue`/`value`. -/
structure ChildState where
  isDisabled : Bool
  isValid : Bool
  isReadonly : Bool
  isRequired : Bool
  isPending : Bool
  isTouched : Bool
  isDirty : Bool
  isSubmitted : Bool
  errors : Option ErrObj
  rawValue : JsVal
  value : JsVal
deriving DecidableEq

/-- Memo `nonDisabledControlsMemo`: the direct children whose `isDisabled` is
false. -/
def nonDisabledControlsMemo (controls : List ChildState) : List ChildState :=
  controls.filter (fun c => !c.isDisabled)

/-- Memo `childrenAreValidMemo`: every enabled child is valid (`every` on the
enabled subset, with no empty-collection special case). -/
def childrenAreValidMemo (controls : List ChildState) : Bool :=
  (nonDisabledControlsMemo controls).all (fun c => c.isValid)

/-- Memo `childrenAreDisabledMemo`: `false` for an empty collection, else
every child (including disabled ones) is disabled. -/
def childrenAreDisabledMemo (controls : List ChildState) : Bool :=
  if controls.length = 0 then false
  else controls.all (fun c => c.isDisabled)

/-- Memo `childrenAreReadonlyMemo`: `false` when the enabled subset is empty,
else every enabled child is readonly. -/
def childrenAreReadonlyMemo (controls : List ChildState) : Bool :=
  let cs := nonDisabledControlsMemo controls
  if cs.length = 0 then false else cs.all (fun c => c.isReadonly)

/-- Memo `childrenAreRequiredMemo`: `false` when the enabled subset is empty,
else every enabled child is required. -/
def childrenAreRequiredMemo (controls : List ChildState) : Bool :=
  let cs := nonDisabledControlsMemo controls
  if cs.length = 0 then false else cs.all (fun c => c.isRequired)

/-- Memo `childrenArePendingMemo`: `false` when the enabled subset is empty,
else every enabled child is pending. -/
def childrenArePendingMemo (controls : List ChildState) : Bool :=
  let cs := nonDisabledControlsMemo controls
  if cs.length = 0 then false else cs.all (fun c => c.isPending)

/-- Memo `childrenAreTouchedMemo`: `false` when the enabled subset is empty,
else every enabled child is touched. -/
def childrenAreTouchedMemo (controls : List ChildState) : Bool :=
  let cs := nonDisabledControlsMemo controls
  if cs.length = 0 then false else cs.all (fun c => c.isTouched)

/-- Memo `childrenAreDirtyMemo`: `false` when the enabled subset is empty,
else every enabled child is dirty. -/
def childrenAreDirtyMemo (controls : List ChildState) : Bool :=
  let cs := nonDisabledControlsMemo controls
  if cs.length = 0 then false else cs.all (fun c => c.isDirty)

/-- Memo `childrenAreSubmittedMemo`: `false` when the enabled subset is empty,
else every enabled child is submitted. -/
def childrenAreSubmittedMemo (controls : List ChildState) : Bool :=
  let cs := nonDisabledControlsMemo controls
  if cs.length = 0 then false else cs.all (fun c => c.isSubmitted)

/-- Spread of an `errors` field: spreading `null` contributes no properties,
spreading an object contributes its properties. -/
def jsSpread (e : Option ErrObj) : ErrObj :=
  match e with
  | none => []
  | some o => o

/-- Strict comparison `curr === null` for the reduce callback of
`childrenErrorsMemo`. `curr` ranges over the enabled child CONTROL OBJECTS
(not their `errors`), and an object is never strictly equal to `null`, so
this test is identically false. -/
def controlIsJsNull (_curr : ChildState) : Bool := false

/-- Memo `childrenErrorsMemo`:
`controls.reduce((prev, curr) => prev === null && curr === null ? null :`
`{ ...prev, ...curr.errors }, null)` over the enabled children. -/
def childrenErrorsMemo (controls : List ChildState) : Option ErrObj :=
  (nonDisabledControlsMemo controls).foldl
    (fun prev curr =>
      if prev.isNone && controlIsJsNull curr then none
      else some (jsSpreadMerge (jsSpread prev) (jsSpread curr.errors)))
    none

/-- Memo `errorsMemo` of a container: `null` when both `self.errors` and
`children.errors` are `null` (objects, even empty ones, are truthy in the
`!x` tests), else `{ ...children.errors, ...self.errors }`. -/
def errorsMemo (selfErrors childrenErrors : Option ErrObj) : Option ErrObj :=
  if selfErrors.isNone && childrenErrors.isNone then none
  else some (jsSpreadMerge (jsSpread childrenErrors) (jsSpread selfErrors))

/-- Memo `rawValueMemo` of `createFormGroup`:
`Object.fromEntries(allControlEntriesMemo().map(([k, c]) => [k, c.rawValue]))`. -/
def groupRawValueMemo (controls : List (Key × ChildState)) :
    List (Key × JsVal) :=
  controls.map (fun kc => (kc.1, kc.2.rawValue))

/-- Memo `enabledControlEntriesMemo` of `createFormGroup`: the entries whose
control is not disabled. -/
def enabledControlEntriesMemo (controls : List (Key × ChildState)) :
    List (Key × ChildState) :=
  controls.filter (fun kc => !kc.2.isDisabled)

/-- Memo `valueMemo` of `createFormGroup`:
`Object.fromEntries(enabledControlEntriesMemo().map(([k, c]) => [k, c.value]))`. -/
def groupValueMemo (controls : List (Key × ChildState)) :
    List (Key × JsVal) :=
  (enabledControlEntriesMemo controls).map (fun kc => (kc.1, kc.2.value))

/-- Memo `rawValueMemo` of `createFormArray`:
`controls.map((c) => c.rawValue)`. -/
def arrayRawValueMemo (controls : List ChildState) : List JsVal :=
  controls.map (fun c => c.rawValue)

/-- Memo `enabledControlsMemo` of `createFormArray`:
`controls.filter((c) => !c.isDisabled)`. -/
def arrayEnabledControlsMemo (controls : List ChildState) : List ChildState :=
  controls.filter (fun c => !c.isDisabled)

/-- Memo `valueMemo` of `createFormArray`:
`enabledControlsMemo().map((c) => c.value)`. -/
def arrayValueMemo (controls : List ChildState) : List JsVal :=
  (arrayEnabledControlsMemo controls).map (fun c => c.value)

/-- State of a leaf `FormControl` relevant to its value: the `rawValue`
store field set at construction from the initial value. -/
structure FormControlState where
  rawValue : JsVal
deriving DecidableEq

/-- Constructor `createFormControl(initValue)`: stores the initial value as
`rawValue`. -/
def createFormControlState (initValue : JsVal) : FormControlState :=
  { rawValue := initValue }

/-- Getter `value` of a `FormControl`: `return this.rawValue`. -/
def fcValue (s : FormControlState) : JsVal :=
  s.rawValue

/-- Method `setValue(value)` of a `FormControl`: equality-guarded write of
`rawValue`. -/
def fcSetValue (s : FormControlState) (value : JsVal) : FormControlState :=
  if fcValue s = value then s else { rawValue := value }

mutual
/-- Form value passed to `setValue`/`patchValue` and stored in leaves: a
scalar or a JS object of named sub-values. String scalars are not included in
this fragment, so `Object.entries` of a scalar is always `[]`. -/
inductive FVal where
  | vBool : Bool → FVal
  | vNum : Int → FVal
  | obj : FEntries → FVal
deriving DecidableEq

/-- Entry list of a JS object value, in insertion order (keys are unique in
any object produced by JavaScript). -/
inductive FEntries where
  | nil : FEntries
  | fcons : Key → FVal → FEntries → FEntries
deriving DecidableEq
end

mutual
/-- A control tree node: a leaf `FormControl` holding a raw value, or an
object container (`FormGroup`) holding named child controls. -/
inductive Ctrl where
  | leaf : FVal → Ctrl
  | group : CtrlEntries → Ctrl
deriving DecidableEq

/-- The `controls` collection of an object container, in insertion order. -/
inductive CtrlEntries where
  | nil : CtrlEntries
  | ccons : Key → Ctrl → CtrlEntries → CtrlEntries
deriving DecidableEq
end

/-- Entry count `Object.entries(v).length` of a form value. -/
def FEntries.flen : FEntries → Nat
  | .nil => 0
  | .fcons _ _ rest => rest.flen + 1

/-- Lookup of a key in a form-value object. -/
def FEntries.flookup : FEntries → Key → Option FVal
  | .nil, _ => none
  | .fcons k0 v rest, k => if k0 = k then some v else rest.flookup k

/-- Membership of a key among the entries of a form-value object. -/
def FEntries.fhasKey : FEntries → Key → Bool
  | .nil, _ => false
  | .fcons k0 _ rest, k => k0 = k || rest.fhasKey k

/-- Child count `control.size` of an object container. -/
def CtrlEntries.clen : CtrlEntries → Nat
  | .nil => 0
  | .ccons _ _ rest => rest.clen + 1

/-- Collection read `controls[key]`. -/
def CtrlEntries.clookup : CtrlEntries → Key → Option Ctrl
  | .nil, _ => none
  | .ccons k0 c rest, k => if k0 = k then some c else rest.clookup k

/-- Collection write `controls[key] = c`: replaces in place when the key is
present, otherwise appends. -/
def CtrlEntries.cset : CtrlEntries → Key → Ctrl → CtrlEntries
  | .nil, k, c => .ccons k c .nil
  | .ccons k0 c0 rest, k, c =>
    if k0 = k then .ccons k0 c rest else .ccons k0 c0 (rest.cset k c)

/-- Collection removal `delete controls[key]`. -/
def CtrlEntries.cdelete : CtrlEntries → Key → CtrlEntries
  | .nil, _ => .nil
  | .ccons k0 c0 rest, k =>
    if k0 = k then rest.cdelete k else .ccons k0 c0 (rest.cdelete k)

mutual
/-- Structural comparison of two controls, the model of the library's
`isEqual` (fast-deep-equal) applied to controls. -/
def ctrlBeq : Ctrl → Ctrl → Bool
  | .leaf a, .leaf b => a = b
  | .group a, .group b => ctrlEntriesBeq a b
  | _, _ => false

/-- Structural comparison of two child collections. -/
def ctrlEntriesBeq : CtrlEntries → CtrlEntries → Bool
  | .nil, .nil => true
  | .ccons k0 c0 r0, .ccons k1 c1 r1 =>
    k0 = k1 && ctrlBeq c0 c1 && ctrlEntriesBeq r0 r1
  | _, _ => false
end

/-- Method `setControl(key, newControl)` of `createFormGroup`: deleting an
absent key and assigning an already-equal control are silent no-ops (the
guard `newControl === null ? !control.controls[key] : isEqual(...)`); else the
entry is deleted or assigned. The function is total: no branch throws. -/
def groupSetControl (cs : CtrlEntries) (key : Key) (newControl : Option Ctrl) :
    CtrlEntries :=
  match newControl with
  | none => if (cs.clookup key).isNone then cs else cs.cdelete key
  | some c =>
    if (match cs.clookup key with
        | some c0 => ctrlBeq c0 c
        | none => false) then cs
    else cs.cset key c

/-- Index write `state.controls[key] = newControl` on an array container:
replace in range, append at index `length` (the `push` case). Sparse writes
beyond the length are outside this model. -/
def arrayAssign (cs : List Ctrl) (i : Nat) (c : Ctrl) : List Ctrl :=
  if i < cs.length then cs.set i c else cs ++ [c]

/-- Method `setControl(key, newControl)` of `createFormArray`: the same guard
as the group variant; a `null` control splices the index out
(`controls.splice(key, 1)`), shifting later indices down. The function is
total: no branch throws. -/
def arraySetControl (cs : List Ctrl) (key : Nat) (newControl : Option Ctrl) :
    List Ctrl :=
  match newControl with
  | none => if (cs.get? key).isNone then cs else cs.eraseIdx key
  | some c =>
    if (match cs.get? key with
        | some c0 => ctrlBeq c0 c
        | none => false) then cs
    else arrayAssign cs key c

/-- Argument of `removeControl`: a child-control reference or a key. -/
inductive CtrlOrKey where
  | ctrl : Ctrl → CtrlOrKey
  | key : Key → CtrlOrKey

/-- Strict comparison `c !== newControl` (negated) between a stored child and
the `removeControl` argument: a key (a string or number) is never strictly
equal to a control object; between two controls, `===` is reference identity,
modelled structurally. -/
def argMatchesChild (arg : CtrlOrKey) (c : Ctrl) : Bool :=
  match arg with
  | .key _ => false
  | .ctrl c2 => ctrlBeq c c2

/-- Scan of the `removeControl` loop: the first entry whose control is
strictly equal to the argument. -/
def removeControlFind : CtrlEntries → CtrlOrKey → Option Key
  | .nil, _ => none
  | .ccons k c rest, arg =>
    if argMatchesChild arg c then some k else removeControlFind rest arg

/-- Method `removeControl(newControl)` of
`createAbstractControlContainerBase`: iterates the entries, skipping every
child that is not strictly equal to the argument; on the first match it calls
`setControl(key, null)` and returns. With no match it falls through and the
collection is untouched. -/
def removeControl (cs : CtrlEntries) (arg : CtrlOrKey) : CtrlEntries :=
  match removeControlFind cs arg with
  | some k => groupSetControl cs k none
  | none => cs

/-- Result of a JS expression that may be a control, `null`, or `undefined`. -/
inductive GetRes where
  | ctrl : Ctrl → GetRes
  | jsNull : GetRes
  | jsUndefined : GetRes
deriving DecidableEq

/-- Indexing `that.controls[args[0]]`: the child when present, JS `undefined`
when the key is absent. -/
def controlsIndex (cs : CtrlEntries) (k : Key) : GetRes :=
  match cs.clookup k with
  | some c => .ctrl c
  | none => .jsUndefined

/-- Reduce callback of `get`: `isAbstractControlContainer(prev) ?`
`prev.get(curr) : null`, where the single-key `prev.get(curr)` is
`prev.controls[curr]`. -/
def getStep (prev : GetRes) (k : Key) : GetRes :=
  match prev with
  | .ctrl (.group cs) => controlsIndex cs k
  | _ => .jsNull

/-- Method `get(...args)` of `createAbstractControlContainerBase`: throws on
zero arguments; one argument indexes `controls` directly; several arguments
reduce over the keys starting from the container itself. -/
def containerGet (cs : CtrlEntries) (args : List Key) : Except String GetRes :=
  match args with
  | [] => .error "Missing arguments for AbstractControlContainer#get()"
  | [k] => .ok (controlsIndex cs k)
  | _ => .ok (args.foldl getStep (.ctrl (.group cs)))

/-- Specification-side path walk, from the spec sentence for `get`: hop into
the container at each key, failing when a hop is absent or the intermediate
value is not a container. Used to state the amended claim. -/
def resolvePath : Ctrl → List Key → Option Ctrl
  | c, [] => some c
  | .group cs, k :: rest =>
    match cs.clookup k with
    | some c2 => resolvePath c2 rest
    | none => none
  | .leaf _, _ :: _ => none

mutual
/-- Method `setValue(value)`: on a leaf, an equality-guarded write of the raw
value; on a container, `Object.entries(value)` must have exactly `size`
entries (else it throws), and each entry's value is `setValue`-ed into the
child named by its key. `Object.entries` of a non-string scalar is `[]`. -/
def ctrlSetValue : Ctrl → FVal → Except String Ctrl
  | .leaf old, v => .ok (if old = v then .leaf old else .leaf v)
  | .group cs, .obj entries =>
    if entries.flen ≠ cs.clen then
      .error "setValue error: you must provide a value for each control."
    else (setValueLoop cs entries).map Ctrl.group
  | .group cs, .vBool _ =>
    if 0 ≠ cs.clen then
      .error "setValue error: you must provide a value for each control."
    else .ok (.group cs)
  | .group cs, .vNum _ =>
    if 0 ≠ cs.clen then
      .error "setValue error: you must provide a value for each control."
    else .ok (.group cs)

/-- Loop of the container `setValue`: each value entry addresses the child at
its key, throwing on an unknown key; the child is replaced by the result of
its own `setValue`. -/
def setValueLoop : CtrlEntries → FEntries → Except String CtrlEntries
  | cs, .nil => .ok cs
  | cs, .fcons k v rest =>
    match cs.clookup k with
    | none => .error ("Invalid setValue value key \"" ++ k ++ "\".")
    | some c =>
      match ctrlSetValue c v with
      | .error e => .error e
      | .ok c2 => setValueLoop (cs.cset k c2) rest
end

mutual
/-- Method `patchValue(value)` of a container: iterates
`Object.entries(value)`; entries address children by key (unknown keys
throw); a container child is recursively `patchValue`-ed, any other child is
`setValue`-ed. Keys absent from the patch are untouched. -/
def groupPatchValue : CtrlEntries → FVal → Except String CtrlEntries
  | cs, .obj entries => patchValueLoop cs entries
  | cs, .vBool _ => .ok cs
  | cs, .vNum _ => .ok cs

/-- Loop of the container `patchValue`. -/
def patchValueLoop : CtrlEntries → FEntries → Except String CtrlEntries
  | cs, .nil => .ok cs
  | cs, .fcons k v rest =>
    match cs.clookup k with
    | none => .error ("Invalid patchValue value key \"" ++ k ++ "\".")
    | some c =>
      match c with
      | .group gcs =>
        match groupPatchValue gcs v with
        | .error e => .error e
        | .ok gcs2 => patchValueLoop (cs.cset k (.group gcs2)) rest
      | .leaf old =>
        match ctrlSetValue (.leaf old) v with
        | .error e => .error e
        | .ok c2 => patchValueLoop (cs.cset k c2) rest
end

/-- Whether an `Except` result is an error (the call threw). -/
def exceptIsError {ε α : Type} : Except ε α → Bool
  | .error _ => true
  | .ok _ => false

/-- Wellformedness of a JS object / Map model: keys are unique, as they are
in every object or Map JavaScript can produce. -/
def objKeysNodup {α : Type} (o : List (Key × α)) : Prop :=
  (o.map Prod.fst).Nodup

/-- Wellformedness of an errors store: unique source ids and unique keys
inside every partition. -/
def storeWf (m : ErrorsStore) : Prop :=
  objKeysNodup m ∧ ∀ kv ∈ m, objKeysNodup kv.2

/-- Wellformedness of a `setErrors` argument (the shapes JavaScript can
supply: objects and Maps have unique keys). -/
def ErrorsInputWf : ErrorsInput → Prop
  | .errs e => objKeysNodup e
  | .jnull => True
  | .store m => storeWf m

/-- Test fixture for C1: an enabled, error-free child control. -/
def c1Child : ChildState :=
  { isDisabled := false, isValid := true, isReadonly := false
    isRequired := false, isPending := false, isTouched := false
    isDirty := false, isSubmitted := false, errors := none
    rawValue := .vStr "x", value := .vStr "x" }

/-- Test fixture for C5: a disabled child control. -/
def c5Disabled : ChildState :=
  { isDisabled := true, isValid := true, isReadonly := false
    isRequired := false, isPending := false, isTouched := false
    isDirty := false, isSubmitted := false, errors := none
    rawValue := .vStr "a", value := .vStr "a" }

/-- Test fixture for C7: a disabled child control at index 0. -/
def c7Disabled : ChildState :=
  { isDisabled := true, isValid := true, isReadonly := false
    isRequired := false, isPending := false, isTouched := false
    isDirty := false, isSubmitted := false, errors := none
    rawValue := .vStr "a", value := .vStr "a" }

/-- Test fixture for C7: an enabled child control at index 1. -/
def c7Enabled : ChildState :=
  { isDisabled := false, isValid := true, isReadonly := false
    isRequired := false, isPending := false, isTouched := false
    isDirty := false, isSubmitted := false, errors := none
    rawValue := .vStr "b", value := .vStr "b" }

/-- C6: for every leaf `FormControl`, constructed with any initial value and
then subjected to any sequence of `setValue` calls, `value` equals `rawValue`
at every point in time — the `value` getter is defined as
`return this.rawValue` and no other leaf mutator touches either field. -/
theorem c6_leaf_value_eq_rawValue (init : JsVal) (ops : List JsVal) :
    fcValue (ops.foldl fcSetValue (createFormControlState init)) =
      (ops.foldl fcSetValue (createFormControlState init)).rawValue := rfl

/-- C1: evaluation of `childrenErrorsMemo` at the failing input — a container
with one enabled child whose `errors` is `null`. The reduce callback compares
the child CONTROL (`curr`), never `null`, instead of `curr.errors`, so the
result is the empty object `some []` rather than `null` (`none`), and the
container `errors` memo then also yields the empty object; the memo's own doc
comment promises `null` when there are no child errors. -/
theorem c1_childrenErrors_empty_object :
    childrenErrorsMemo [c1Child] = some [] ∧
    errorsMemo none (childrenErrorsMemo [c1Child]) = some [] ∧
    (some ([] : ErrObj) ≠ (none : Option ErrObj)) := by
  refine ⟨rfl, rfl, by simp⟩

/-- C2: evaluation of `removeControl` at the failing input — a container with
a child at key `"a"`, called with the KEY `"a"` (not a control reference).
The loop compares each child control to the key with `!==`; a string is never
strictly equal to a control object, so nothing matches and the collection is
returned unchanged, although the interface documentation and README promise
that the child at the key is removed. -/
theorem c2_removeControl_key_noop :
    removeControl (.ccons "a" (.leaf (.vNum 1)) .nil) (.key "a") =
      .ccons "a" (.leaf (.vNum 1)) .nil := rfl

/-- C10: `setControl(key, null)` with an absent key is a silent no-op on both
container variants: the guard `!control.controls[key]` fires (an absent
property reads as `undefined`, which is falsy), the function returns before
any mutation, and no branch of either `setControl` throws. -/
theorem c10_setControl_null_absent_noop :
    (∀ (cs : CtrlEntries) (k : Key), cs.clookup k = none →
      groupSetControl cs k none = cs) ∧
    (∀ (cs : List Ctrl) (i : Nat), cs.get? i = none →
      arraySetControl cs i none = cs) := by
  constructor
  · intro cs k h
    simp [groupSetControl, h]
  · intro cs i h
    have hlen : cs.length ≤ i := List.get?_eq_none.mp h
    simp [arraySetControl, h]
    omega

/-- Witness for C10 at concrete inputs: deleting key `"b"` from a group that
only has `"a"`, and index 5 from a one-element array. -/
theorem c10_setControl_null_absent_noop_witness :
    groupSetControl (.ccons "a" (.leaf (.vNum 1)) .nil) "b" none =
      .ccons "a" (.leaf (.vNum 1)) .nil ∧
    arraySetControl [Ctrl.leaf (.vNum 1)] 5 none = [Ctrl.leaf (.vNum 1)] :=
  ⟨c10_setControl_null_absent_noop.1 _ "b" (by decide),
   c10_setControl_null_absent_noop.2 _ 5 (by decide)⟩

/-- C7 counterexample: in the array container `[disabled, enabled]`, index 1
holds an enabled child, yet `value` — the packed list of enabled children's
values — has nothing at index 1. So `value`'s index set is `{0}`, not the
enabled subset `{1}` of the `controls` index set, refuting the claim's
array-container half. -/
theorem c7_value_index_set_counterexample :
    ([c7Disabled, c7Enabled].get? 1 = some c7Enabled ∧
      c7Enabled.isDisabled = false) ∧
    (arrayValueMemo [c7Disabled, c7Enabled]).get? 1 = none := by
  refine ⟨⟨rfl, rfl⟩, rfl⟩

/-- C7 amended: for object containers the claim holds as stated — `rawValue`
has exactly the keys of `controls` and `value` has exactly the keys of the
enabled children, in order. For array containers, `rawValue`'s index set
equals that of `controls`; `value` is the packed sequence of the enabled
children's values, so its index set is an initial segment of length equal to
the number of enabled children, not the original enabled indices. -/
theorem c7_value_rawValue_key_sets :
    (∀ controls : List (Key × ChildState),
      (groupRawValueMemo controls).map Prod.fst = controls.map Prod.fst ∧
      (groupValueMemo controls).map Prod.fst =
        (controls.filter fun kc => kc.2.isDisabled = false).map Prod.fst) ∧
    (∀ controls : List ChildState,
      (arrayRawValueMemo controls).length = controls.length ∧
      (arrayValueMemo controls).length =
        (controls.filter fun c => c.isDisabled = false).length ∧
      arrayValueMemo controls =
        (controls.filter fun c => c.isDisabled = false).map
          (fun c => c.value)) := by
  have hfilter : ∀ controls : List ChildState,
      controls.filter (fun c => !c.isDisabled) =
        controls.filter (fun c => c.isDisabled = false) := by
    intro controls
    apply List.filter_congr
    intro c _
    simp
  have hfilter2 : ∀ controls : List (Key × ChildState),
      controls.filter (fun kc => !kc.2.isDisabled) =
        controls.filter (fun kc => kc.2.isDisabled = false) := by
    intro controls
    apply List.filter_congr
    intro kc _
    simp
  constructor
  · intro controls
    constructor
    · simp [groupRawValueMemo]
    · simp [groupValueMemo, enabledControlEntriesMemo, hfilter2]
  · intro controls
    refine ⟨by simp [arrayRawValueMemo], ?_, ?_⟩
    · simp [arrayValueMemo, arrayEnabledControlsMemo, hfilter]
    · simp [arrayValueMemo, arrayEnabledControlsMemo, hfilter]

/-- C5 counterexample: a container holding one disabled child. The enabled
subset is empty, yet `children.areDisabled` is `true` (it is computed over
ALL children), refuting the claim's "every other plural aggregate is false
whenever the enabled-child subset is empty". -/
theorem c5_areDisabled_counterexample :
    nonDisabledControlsMemo [c5Disabled] = [] ∧
    childrenAreDisabledMemo [c5Disabled] = true := by
  refine ⟨rfl, rfl⟩

/-- C5 amended: when the enabled-child subset is empty, `children.areValid`
is vacuously `true` and the seven enabled-subset aggregates (`areTouched`,
`areReadonly`, `areRequired`, `arePending`, `areDirty`, `areSubmitted`) are
`false`; `children.areDisabled`, however, ranges over ALL children and equals
"the collection is non-empty" in this situation (`false` exactly for an empty
collection, `true` when every child is disabled). -/
theorem c5_empty_enabled_aggregates (controls : List ChildState)
    (h : nonDisabledControlsMemo controls = []) :
    childrenAreValidMemo controls = true ∧
    childrenAreDisabledMemo controls = !controls.isEmpty ∧
    childrenAreTouchedMemo controls = false ∧
    childrenAreReadonlyMemo controls = false ∧
    childrenAreRequiredMemo controls = false ∧
    childrenArePendingMemo controls = false ∧
    childrenAreDirtyMemo controls = false ∧
    childrenAreSubmittedMemo controls = false := by
  have hall : ∀ c ∈ controls, c.isDisabled = true := by
    intro c hc
    have h2 := List.filter_eq_nil_iff.mp h c hc
    simpa using h2
  refine ⟨?_, ?_, ?_, ?_, ?_, ?_, ?_, ?_⟩
  · simp [childrenAreValidMemo, h]
  · cases controls with
    | nil => rfl
    | cons c cs =>
      simp [childrenAreDisabledMemo, List.all_eq_true]
      exact ⟨hall c (List.mem_cons_self c cs),
        fun x hx => hall x (List.mem_cons_of_mem c hx)⟩
  · simp [childrenAreTouchedMemo, h]
  · simp [childrenAreReadonlyMemo, h]
  · simp [childrenAreRequiredMemo, h]
  · simp [childrenArePendingMemo, h]
  · simp [childrenAreDirtyMemo, h]
  · simp [childrenAreSubmittedMemo, h]

/-- Witness for C5's amended theorem at a concrete input: a container with a
single disabled child. -/
theorem c5_empty_enabled_aggregates_witness :
    childrenAreValidMemo [c5Disabled] = true ∧
    childrenAreDisabledMemo [c5Disabled] = !([c5Disabled] : List ChildState).isEmpty :=
  ⟨(c5_empty_enabled_aggregates [c5Disabled] (by decide)).1,
   (c5_empty_enabled_aggregates [c5Disabled] (by decide)).2.1⟩

theorem foldl_getStep_jsNull (l : List Key) :
    l.foldl getStep .jsNull = .jsNull := by
  induction l with
  | nil => rfl
  | cons k rest ih => simpa [getStep] using ih

theorem foldl_getStep_resolve (args : List Key) (hne : args ≠ []) (c : Ctrl) :
    (∀ c2, resolvePath c args = some c2 →
      args.foldl getStep (.ctrl c) = .ctrl c2) ∧
    (resolvePath c args = none →
      args.foldl getStep (.ctrl c) = .jsNull ∨
        args.foldl getStep (.ctrl c) = .jsUndefined) := by
  induction args generalizing c with
  | nil => exact absurd rfl hne
  | cons k rest ih =>
    cases rest with
    | nil =>
      cases c with
      | leaf v => exact ⟨fun c2 h => by simp [resolvePath] at h,
          fun _ => Or.inl rfl⟩
      | group cs =>
        cases hl : cs.clookup k with
        | some c2 =>
          refine ⟨fun c3 h => ?_, fun h => ?_⟩
          · simp [resolvePath, hl] at h
            simp [getStep, controlsIndex, hl, h]
          · simp [resolvePath, hl] at h
        | none =>
          refine ⟨fun c3 h => ?_, fun _ => ?_⟩
          · simp [resolvePath, hl] at h
          · exact Or.inr (by simp [getStep, controlsIndex, hl])
    | cons r rs =>
      have hne2 : r :: rs ≠ [] := by simp
      cases c with
      | leaf v =>
        refine ⟨fun c2 h => by simp [resolvePath] at h, fun _ => Or.inl ?_⟩
        show (r :: rs).foldl getStep (getStep (.ctrl (.leaf v)) k) = .jsNull
        simp only [getStep]
        exact foldl_getStep_jsNull (r :: rs)
      | group cs =>
        cases hl : cs.clookup k with
        | some c2 =>
          have hstep : getStep (.ctrl (.group cs)) k = .ctrl c2 := by
            simp [getStep, controlsIndex, hl]
          refine ⟨fun c3 h => ?_, fun h => ?_⟩
          · simp only [resolvePath, hl] at h
            show (r :: rs).foldl getStep (getStep (.ctrl (.group cs)) k) =
              .ctrl c3
            rw [hstep]
            exact (ih hne2 c2).1 c3 h
          · simp only [resolvePath, hl] at h
            show (r :: rs).foldl getStep (getStep (.ctrl (.group cs)) k) =
                .jsNull ∨
              (r :: rs).foldl getStep (getStep (.ctrl (.group cs)) k) =
                .jsUndefined
            rw [hstep]
            exact (ih hne2 c2).2 h
        | none =>
          refine ⟨fun c3 h => by simp [resolvePath, hl] at h,
            fun _ => Or.inl ?_⟩
          show (r :: rs).foldl getStep (getStep (.ctrl (.group cs)) k) =
            .jsNull
          have hstep : getStep (.ctrl (.group cs)) k = .jsUndefined := by
            simp [getStep, controlsIndex, hl]
          rw [hstep]
          show rs.foldl getStep (getStep .jsUndefined r) = .jsNull
          simp only [getStep]
          exact foldl_getStep_jsNull rs

theorem containerGet_eq_foldl (cs : CtrlEntries) (args : List Key)
    (hne : args ≠ []) :
    containerGet cs args = .ok (args.foldl getStep (.ctrl (.group cs))) := by
  match args with
  | [] => exact absurd rfl hne
  | [k] => rfl
  | k :: r :: rs => rfl

/-- C3 amended: `get(...path)` (one or more keys) returns the control reached
by walking the keys through nested containers. When the walk fails, the
result is a falsy non-control rather than always `null`: the reduce yields
`null` when an intermediate value is not a container (including after an
earlier missed hop), but a key absent from the last container reached —
including the single-key case, which indexes `controls` directly — yields JS
`undefined`, not `null`. -/
theorem c3_get_walks_path (cs : CtrlEntries) (args : List Key)
    (hne : args ≠ []) :
    (∀ c, resolvePath (.group cs) args = some c →
      containerGet cs args = .ok (.ctrl c)) ∧
    (resolvePath (.group cs) args = none →
      containerGet cs args = .ok .jsNull ∨
        containerGet cs args = .ok .jsUndefined) := by
  have h := foldl_getStep_resolve args hne (.group cs)
  rw [containerGet_eq_foldl cs args hne]
  refine ⟨fun c hc => ?_, fun hn => ?_⟩
  · rw [h.1 c hc]
  · rcases h.2 hn with h2 | h2 <;> rw [h2]
    · exact Or.inl rfl
    · exact Or.inr rfl

/-- Witness for C3's amended theorem: a two-key walk through a nested group
reaching a leaf. -/
theorem c3_get_walks_path_witness :
    containerGet
        (.ccons "a" (.group (.ccons "b" (.leaf (.vNum 7)) .nil)) .nil)
        ["a", "b"] =
      .ok (.ctrl (.leaf (.vNum 7))) :=
  (c3_get_walks_path _ ["a", "b"] (by simp)).1 _ (by decide)

/-- C3 counterexample: `get("x")` on an empty container. The hop addresses an
absent key, but the result is JS `undefined` (`controls["x"]` on a miss), not
the value `null` the claim requires. -/
theorem c3_get_missing_final_key_undefined :
    containerGet .nil ["x"] = .ok .jsUndefined ∧
    GetRes.jsUndefined ≠ GetRes.jsNull := by
  exact ⟨rfl, by simp⟩

theorem clookup_cset_ne :
    ∀ (cs : CtrlEntries) (k k2 : Key) (c : Ctrl), k2 ≠ k →
      (cs.cset k c).clookup k2 = cs.clookup k2
  | .nil, k, k2, c, hne => by
    simp [CtrlEntries.cset, CtrlEntries.clookup, Ne.symm hne]
  | .ccons k0 c0 rest, k, k2, c, hne => by
    by_cases h0 : k0 = k
    · subst h0
      simp [CtrlEntries.cset, CtrlEntries.clookup, Ne.symm hne]
    · simp only [CtrlEntries.cset, if_neg h0, CtrlEntries.clookup]
      by_cases h2 : k0 = k2
      · simp [h2]
      · simp [h2, clookup_cset_ne rest k k2 c hne]

theorem setValueLoop_isError :
    ∀ (entries : FEntries) (cs : CtrlEntries) (k : Key),
      entries.fhasKey k = true → cs.clookup k = none →
      exceptIsError (setValueLoop cs entries) = true
  | .nil, cs, k, hk, _ => by simp [FEntries.fhasKey] at hk
  | .fcons k0 v rest, cs, k, hk, hcs => by
    cases hl : cs.clookup k0 with
    | none => simp [setValueLoop, hl, exceptIsError]
    | some c =>
      have hkne : k ≠ k0 := by
        intro h; rw [h, hl] at hcs; exact Option.noConfusion hcs
      have hk2 : rest.fhasKey k = true := by
        simp [FEntries.fhasKey] at hk
        rcases hk with h | h
        · exact absurd h.symm hkne
        · exact h
      cases hsv : ctrlSetValue c v with
      | error e => simp [setValueLoop, hl, hsv, exceptIsError]
      | ok c2 =>
        have hrec := setValueLoop_isError rest (cs.cset k0 c2) k hk2
          (by rw [clookup_cset_ne cs k0 k c2 hkne]; exact hcs)
        simpa [setValueLoop, hl, hsv] using hrec

theorem patchValueLoop_isError :
    ∀ (entries : FEntries) (cs : CtrlEntries) (k : Key),
      entries.fhasKey k = true → cs.clookup k = none →
      exceptIsError (patchValueLoop cs entries) = true
  | .nil, cs, k, hk, _ => by simp [FEntries.fhasKey] at hk
  | .fcons k0 v rest, cs, k, hk, hcs => by
    cases hl : cs.clookup k0 with
    | none => simp [patchValueLoop, hl, exceptIsError]
    | some c =>
      have hkne : k ≠ k0 := by
        intro h; rw [h, hl] at hcs; exact Option.noConfusion hcs
      have hk2 : rest.fhasKey k = true := by
        simp [FEntries.fhasKey] at hk
        rcases hk with h | h
        · exact absurd h.symm hkne
        · exact h
      have hlookup2 : ∀ c2 : Ctrl, (cs.cset k0 c2).clookup k = none :=
        fun c2 => by rw [clookup_cset_ne cs k0 k c2 hkne]; exact hcs
      cases c with
      | group gcs =>
        cases hp : groupPatchValue gcs v with
        | error e => simp [patchValueLoop, hl, hp, exceptIsError]
        | ok gcs2 =>
          have hrec := patchValueLoop_isError rest
            (cs.cset k0 (.group gcs2)) k hk2 (hlookup2 _)
          simpa [patchValueLoop, hl, hp] using hrec
      | leaf old =>
        cases hs : ctrlSetValue (.leaf old) v with
        | error e => simp [patchValueLoop, hl, hs, exceptIsError]
        | ok c2 =>
          have hrec := patchValueLoop_isError rest (cs.cset k0 c2) k hk2
            (hlookup2 _)
          simpa [patchValueLoop, hl, hs] using hrec

/-- C4: the container contract violations all throw synchronously and none is
silently ignored — `setValue` throws when the value has a different number of
entries than there are children; `setValue` throws whenever some entry key
names no current child (either the cardinality check or the per-key check, or
a failing recursive `setValue`, raises); `patchValue` throws whenever a patch
key names no current child; and `get()` with zero arguments throws. -/
theorem c4_contract_violations_throw :
    (∀ (cs : CtrlEntries) (entries : FEntries), entries.flen ≠ cs.clen →
      ctrlSetValue (.group cs) (.obj entries) =
        .error "setValue error: you must provide a value for each control.") ∧
    (∀ (cs : CtrlEntries) (entries : FEntries) (k : Key),
      entries.fhasKey k = true → cs.clookup k = none →
      exceptIsError (ctrlSetValue (.group cs) (.obj entries)) = true) ∧
    (∀ (cs : CtrlEntries) (entries : FEntries) (k : Key),
      entries.fhasKey k = true → cs.clookup k = none →
      exceptIsError (groupPatchValue cs (.obj entries)) = true) ∧
    (∀ cs : CtrlEntries,
      containerGet cs [] =
        .error "Missing arguments for AbstractControlContainer#get()") := by
  refine ⟨?_, ?_, ?_, fun cs => rfl⟩
  · intro cs entries h
    rw [ctrlSetValue]
    simp [h]
  · intro cs entries k hk hcs
    rw [ctrlSetValue]
    by_cases hlen : entries.flen = cs.clen
    · simp only [hlen, ne_eq, not_true_eq_false, if_neg, ite_false,
        not_false_eq_true]
      cases hloop : setValueLoop cs entries with
      | error e => rfl
      | ok cs2 =>
        have := setValueLoop_isError entries cs k hk hcs
        rw [hloop] at this
        exact absurd this (by simp [exceptIsError])
    · simp [hlen]
      rfl
  · intro cs entries k hk hcs
    rw [groupPatchValue]
    exact patchValueLoop_isError entries cs k hk hcs

/-- Witness for C4 at concrete inputs: a one-entry value against an empty
group (cardinality mismatch and unknown key for both `setValue` and
`patchValue`), and `get()` with no arguments. -/
theorem c4_contract_violations_throw_witness :
    ctrlSetValue (.group .nil) (.obj (.fcons "a" (.vNum 1) .nil)) =
      .error "setValue error: you must provide a value for each control." ∧
    exceptIsError
        (ctrlSetValue (.group (.ccons "b" (.leaf (.vNum 0)) .nil))
          (.obj (.fcons "a" (.vNum 1) .nil))) = true ∧
    exceptIsError
        (groupPatchValue (.ccons "b" (.leaf (.vNum 0)) .nil)
          (.obj (.fcons "a" (.vNum 1) .nil))) = true ∧
    containerGet .nil [] =
      .error "Missing arguments for AbstractControlContainer#get()" :=
  ⟨c4_contract_violations_throw.1 .nil (.fcons "a" (.vNum 1) .nil) (by decide),
   c4_contract_violations_throw.2.1 _ _ "a" (by decide) (by decide),
   c4_contract_violations_throw.2.2.1 _ _ "a" (by decide) (by decide),
   c4_contract_violations_throw.2.2.2 .nil⟩

theorem mem_of_objLookup {α : Type} (o : List (Key × α)) (k : Key) (v : α)
    (h : objLookup o k = some v) : (k, v) ∈ o := by
  induction o with
  | nil => simp [objLookup] at h
  | cons kv rest ih =>
    obtain ⟨k0, v0⟩ := kv
    by_cases hk : k0 = k
    · subst hk
      simp [objLookup] at h
      simp [h]
    · simp only [objLookup, if_neg hk] at h
      exact List.mem_cons_of_mem _ (ih h)

theorem objLookup_of_mem_nodup {α : Type} (o : List (Key × α))
    (hnd : objKeysNodup o) (k : Key) (v : α) (hm : (k, v) ∈ o) :
    objLookup o k = some v := by
  induction o with
  | nil => simp at hm
  | cons kv rest ih =>
    obtain ⟨k0, v0⟩ := kv
    rw [objKeysNodup, List.map_cons, List.nodup_cons] at hnd
    rcases List.mem_cons.mp hm with h | h
    · injection h with h1 h2
      subst h1; subst h2
      simp [objLookup]
    · have hk : k0 ≠ k := by
        intro he
        apply hnd.1
        rw [he]
        exact List.mem_map.mpr ⟨(k, v), h, rfl⟩
      simp only [objLookup, if_neg hk]
      exact ih hnd.2 h

theorem objLookup_objSet_self {α : Type} (o : List (Key × α)) (k : Key)
    (v : α) : objLookup (objSet o k v) k = some v := by
  induction o with
  | nil => simp [objSet, objLookup]
  | cons kv rest ih =>
    obtain ⟨k0, v0⟩ := kv
    by_cases hk : k0 = k
    · simp [objSet, hk, objLookup]
    · simp [objSet, hk, objLookup, ih]

theorem objSet_objSet_same {α : Type} (o : List (Key × α)) (k : Key)
    (v : α) : objSet (objSet o k v) k v = objSet o k v := by
  induction o with
  | nil => simp [objSet]
  | cons kv rest ih =>
    obtain ⟨k0, v0⟩ := kv
    by_cases hk : k0 = k
    · simp [objSet, hk]
    · simp [objSet, hk, ih]

theorem objLookup_objDelete_self {α : Type} (o : List (Key × α)) (k : Key) :
    objLookup (objDelete o k) k = none := by
  induction o with
  | nil => rfl
  | cons kv rest ih =>
    obtain ⟨k0, v0⟩ := kv
    by_cases hk : k0 = k
    · subst hk
      simpa [objDelete] using ih
    · simpa [objDelete, objLookup, hk] using ih

theorem objDelete_objDelete_same {α : Type} (o : List (Key × α)) (k : Key) :
    objDelete (objDelete o k) k = objDelete o k := by
  induction o with
  | nil => rfl
  | cons kv rest ih =>
    obtain ⟨k0, v0⟩ := kv
    by_cases hk : k0 = k
    · subst hk
      simp [objDelete]
    · simp [objDelete, hk]

theorem objSet_isEmpty {α : Type} (o : List (Key × α)) (k : Key) (v : α) :
    (objSet o k v).isEmpty = false := by
  cases o with
  | nil => rfl
  | cons kv rest =>
    obtain ⟨k0, v0⟩ := kv
    by_cases hk : k0 = k <;> simp [objSet, hk]

theorem mem_objSet {α : Type} (o : List (Key × α)) (k : Key) (v : α)
    (kv : Key × α) (h : kv ∈ objSet o k v) : kv = (k, v) ∨ kv ∈ o := by
  induction o with
  | nil => simp [objSet] at h; exact Or.inl h
  | cons kv0 rest ih =>
    obtain ⟨k0, v0⟩ := kv0
    by_cases hk : k0 = k
    · subst hk
      simp only [objSet, if_pos rfl] at h
      rcases List.mem_cons.mp h with h | h
      · exact Or.inl h
      · exact Or.inr (List.mem_cons_of_mem _ h)
    · simp only [objSet, if_neg hk] at h
      rcases List.mem_cons.mp h with h | h
      · exact Or.inr (by simp [h])
      · rcases ih h with h2 | h2
        · exact Or.inl h2
        · exact Or.inr (List.mem_cons_of_mem _ h2)

theorem mem_keys_objSet {α : Type} (o : List (Key × α)) (k : Key) (v : α)
    (k2 : Key) (h : k2 ∈ (objSet o k v).map Prod.fst) :
    k2 ∈ o.map Prod.fst ∨ k2 = k := by
  rcases List.mem_map.mp h with ⟨kv, hkv, hfst⟩
  rcases mem_objSet o k v kv hkv with h2 | h2
  · right
    rw [h2] at hfst
    exact hfst.symm
  · left
    exact List.mem_map.mpr ⟨kv, h2, hfst⟩

theorem objKeysNodup_objSet {α : Type} (o : List (Key × α)) (k : Key)
    (v : α) (hnd : objKeysNodup o) : objKeysNodup (objSet o k v) := by
  induction o with
  | nil => simp [objSet, objKeysNodup]
  | cons kv rest ih =>
    obtain ⟨k0, v0⟩ := kv
    rw [objKeysNodup, List.map_cons, List.nodup_cons] at hnd
    by_cases hk : k0 = k
    · subst hk
      rw [objKeysNodup, objSet, if_pos rfl, List.map_cons, List.nodup_cons]
      exact hnd
    · rw [objKeysNodup, objSet, if_neg hk, List.map_cons, List.nodup_cons]
      refine ⟨fun hmem => ?_, ih hnd.2⟩
      rcases mem_keys_objSet rest k v k0 hmem with h | h
      · exact hnd.1 h
      · exact hk h

theorem objKeysNodup_objDelete {α : Type} (o : List (Key × α)) (k : Key)
    (hnd : objKeysNodup o) : objKeysNodup (objDelete o k) := by
  have hsub : List.Sublist ((objDelete o k).map Prod.fst)
      (o.map Prod.fst) :=
    List.Sublist.map Prod.fst (List.filter_sublist o)
  exact List.Nodup.sublist hsub hnd

theorem storeWf_objSet (m : ErrorsStore) (k : Key) (v : ErrObj)
    (hw : storeWf m) (hv : objKeysNodup v) : storeWf (objSet m k v) := by
  refine ⟨objKeysNodup_objSet m k v hw.1, fun kv hm => ?_⟩
  rcases mem_objSet m k v kv hm with h | h
  · rw [h]; exact hv
  · exact hw.2 kv h

theorem storeWf_objDelete (m : ErrorsStore) (k : Key) (hw : storeWf m) :
    storeWf (objDelete m k) := by
  refine ⟨objKeysNodup_objDelete m k hw.1, fun kv hm => ?_⟩
  exact hw.2 kv (List.mem_of_mem_filter hm)

theorem assocEqBy_refl {α : Type} (veq : α → α → Bool) (o : List (Key × α))
    (hrefl : ∀ kv ∈ o, veq kv.2 kv.2 = true) (hnd : objKeysNodup o) :
    assocEqBy veq o o = true := by
  rw [assocEqBy, Bool.and_eq_true]
  constructor <;> rw [List.all_eq_true] <;> intro kv hm <;>
    rw [objLookup_of_mem_nodup o hnd kv.1 kv.2 (by simpa using hm)] <;>
    exact hrefl kv hm

theorem assocEqBy_lookup_left {α : Type} (veq : α → α → Bool)
    (a b : List (Key × α)) (h : assocEqBy veq a b = true) (k : Key) (v : α)
    (hm : (k, v) ∈ a) : ∃ w, objLookup b k = some w ∧ veq v w = true := by
  rw [assocEqBy, Bool.and_eq_true] at h
  have h1 := List.all_eq_true.mp h.1 (k, v) hm
  cases hl : objLookup b k with
  | none => rw [hl] at h1; exact absurd h1 (by simp)
  | some w => rw [hl] at h1; exact ⟨w, rfl, h1⟩

theorem assocEqBy_lookup_right {α : Type} (veq : α → α → Bool)
    (a b : List (Key × α)) (h : assocEqBy veq a b = true) (k : Key) (v : α)
    (hv : objLookup b k = some v) :
    ∃ w, objLookup a k = some w ∧ veq w v = true := by
  rw [assocEqBy, Bool.and_eq_true] at h
  have h2 := List.all_eq_true.mp h.2 (k, v) (mem_of_objLookup b k v hv)
  cases hl : objLookup a k with
  | none => rw [hl] at h2; exact absurd h2 (by simp)
  | some w => rw [hl] at h2; exact ⟨w, rfl, h2⟩

theorem errObjEqb_refl (o : ErrObj) (hnd : objKeysNodup o) :
    errObjEqb o o = true :=
  assocEqBy_refl _ o (fun kv _ => by simp) hnd

theorem storeEqb_refl (m : ErrorsStore) (hw : storeWf m) :
    storeEqb m m = true :=
  assocEqBy_refl _ m (fun kv hm => errObjEqb_refl kv.2 (hw.2 kv hm)) hw.1

theorem vstoreEqb_refl (m : ValidatorStore) (hnd : objKeysNodup m) :
    vstoreEqb m m = true :=
  assocEqBy_refl _ m (fun kv _ => by simp) hnd

theorem setErrors_idem (s : SelfState) (hw : storeWf s.errorsStore)
    (input : ErrorsInput) (hin : ErrorsInputWf input)
    (opts : Option SourceId) :
    setErrors (setErrors s input opts) input opts =
      setErrors s input opts := by
  cases input with
  | store m =>
    by_cases hg : storeEqb s.errorsStore m = true
    · have h1 : setErrors s (.store m) opts = s := by simp [setErrors, hg]
      rw [h1]
      exact h1
    · have h1 : setErrors s (.store m) opts =
          { s with errorsStore := m } := by
        simp [setErrors, hg]
      rw [h1]
      simp [setErrors, storeEqb_refl m hin]
  | jnull =>
    by_cases hg : storeEqb s.errorsStore
        (objDelete s.errorsStore (opts.getD DEFAULT_SOURCE)) = true
    · have h1 : setErrors s .jnull opts = s := by simp [setErrors, hg]
      rw [h1]
      exact h1
    · have h1 : setErrors s .jnull opts =
          { s with errorsStore :=
              objDelete s.errorsStore (opts.getD DEFAULT_SOURCE) } := by
        simp [setErrors, hg]
      rw [h1]
      simp [setErrors, objDelete_objDelete_same,
        storeEqb_refl _ (storeWf_objDelete _ _ hw)]
  | errs e =>
    by_cases hemp : e.isEmpty = true
    · by_cases hg : storeEqb s.errorsStore
          (objDelete s.errorsStore (opts.getD DEFAULT_SOURCE)) = true
      · have h1 : setErrors s (.errs e) opts = s := by
          simp [setErrors, hemp, hg]
        rw [h1]
        exact h1
      · have h1 : setErrors s (.errs e) opts =
            { s with errorsStore :=
                objDelete s.errorsStore (opts.getD DEFAULT_SOURCE) } := by
          simp [setErrors, hemp, hg]
        rw [h1]
        simp [setErrors, hemp, objDelete_objDelete_same,
          storeEqb_refl _ (storeWf_objDelete _ _ hw)]
    · by_cases hg : storeEqb s.errorsStore
          (objSet s.errorsStore (opts.getD DEFAULT_SOURCE) e) = true
      · have h1 : setErrors s (.errs e) opts = s := by
          simp [setErrors, hemp, hg]
        rw [h1]
        exact h1
      · have h1 : setErrors s (.errs e) opts =
            { s with errorsStore :=
                objSet s.errorsStore (opts.getD DEFAULT_SOURCE) e } := by
          simp [setErrors, hemp, hg]
        rw [h1]
        simp [setErrors, hemp, objSet_objSet_same,
          storeEqb_refl _ (storeWf_objSet _ _ _ hw hin)]

/-- C8 amended: calling a mutator twice in succession with the same argument
produces at most one state transition — the second call is a no-op — for the
six boolean `markX` mutators, for `setErrors` with any input shape, and for
`setValidators` given `null`, a single validator function, or a validator
Map. The exception (see the counterexample) is `setValidators` given an
ARRAY of validators, where `composeValidators` allocates a fresh composed
closure on each call. -/
theorem c8_double_mutation_idempotent (s : SelfState)
    (hw : storeWf s.errorsStore) (hv : objKeysNodup s.validatorStore) :
    (∀ b, markTouched (markTouched s b) b = markTouched s b) ∧
    (∀ b, markDirty (markDirty s b) b = markDirty s b) ∧
    (∀ b, markReadonly (markReadonly s b) b = markReadonly s b) ∧
    (∀ b, markRequired (markRequired s b) b = markRequired s b) ∧
    (∀ b, markDisabled (markDisabled s b) b = markDisabled s b) ∧
    (∀ b, markSubmitted (markSubmitted s b) b = markSubmitted s b) ∧
    (∀ input opts, ErrorsInputWf input →
      setErrors (setErrors s input opts) input opts =
        setErrors s input opts) ∧
    (∀ ctr opts,
      (setValidators (setValidators s ctr .vnull opts).1
        (setValidators s ctr .vnull opts).2 .vnull opts).1 =
        (setValidators s ctr .vnull opts).1) ∧
    (∀ ctr f opts,
      (setValidators (setValidators s ctr (.fn f) opts).1
        (setValidators s ctr (.fn f) opts).2 (.fn f) opts).1 =
        (setValidators s ctr (.fn f) opts).1) ∧
    (∀ ctr m opts, objKeysNodup m →
      (setValidators (setValidators s ctr (.store m) opts).1
        (setValidators s ctr (.store m) opts).2 (.store m) opts).1 =
        (setValidators s ctr (.store m) opts).1) := by
  refine ⟨?_, ?_, ?_, ?_, ?_, ?_, ?_, ?_, ?_, ?_⟩
  · intro b
    by_cases h : s.isTouched = b
    · simp [markTouched, h]
    · have h1 : markTouched s b = { s with isTouched := b } := by
        simp [markTouched, h]
      rw [h1]
      simp [markTouched]
  · intro b
    by_cases h : s.isDirty = b
    · simp [markDirty, h]
    · have h1 : markDirty s b = { s with isDirty := b } := by
        simp [markDirty, h]
      rw [h1]
      simp [markDirty]
  · intro b
    by_cases h : s.isReadonly = b
    · simp [markReadonly, h]
    · have h1 : markReadonly s b = { s with isReadonly := b } := by
        simp [markReadonly, h]
      rw [h1]
      simp [markReadonly]
  · intro b
    by_cases h : s.isRequired = b
    · simp [markRequired, h]
    · have h1 : markRequired s b = { s with isRequired := b } := by
        simp [markRequired, h]
      rw [h1]
      simp [markRequired]
  · intro b
    by_cases h : s.isDisabled = b
    · simp [markDisabled, h]
    · have h1 : markDisabled s b = { s with isDisabled := b } := by
        simp [markDisabled, h]
      rw [h1]
      simp [markDisabled]
  · intro b
    by_cases h : s.isSubmitted = b
    · simp [markSubmitted, h]
    · have h1 : markSubmitted s b = { s with isSubmitted := b } := by
        simp [markSubmitted, h]
      rw [h1]
      simp [markSubmitted]
  · intro input opts hin
    exact setErrors_idem s hw input hin opts
  · intro ctr opts
    by_cases hg : vstoreEqb s.validatorStore
        (objDelete s.validatorStore (opts.getD DEFAULT_SOURCE)) = true
    · simp [setValidators, composeValidatorsAlloc, hg]
    · simp [setValidators, composeValidatorsAlloc, hg,
        objDelete_objDelete_same,
        vstoreEqb_refl _ (objKeysNodup_objDelete _ _ hv)]
  · intro ctr f opts
    by_cases hg : vstoreEqb s.validatorStore
        (objSet s.validatorStore (opts.getD DEFAULT_SOURCE) f) = true
    · simp [setValidators, composeValidatorsAlloc, hg]
    · simp [setValidators, composeValidatorsAlloc, hg, objSet_objSet_same,
        vstoreEqb_refl _ (objKeysNodup_objSet _ _ _ hv)]
  · intro ctr m opts hm
    by_cases hg : vstoreEqb s.validatorStore m = true
    · simp [setValidators, hg]
    · simp [setValidators, hg, vstoreEqb_refl m hm]

/-- Witness for C8's amended theorem: a double `markTouched true` and a
double single-function `setValidators` on a freshly constructed control. -/
theorem c8_double_mutation_idempotent_witness :
    markTouched (markTouched SelfState.init true) true =
      markTouched SelfState.init true ∧
    (setValidators (setValidators SelfState.init 0 (.fn 7) (some "S")).1
      (setValidators SelfState.init 0 (.fn 7) (some "S")).2
      (.fn 7) (some "S")).1 =
      (setValidators SelfState.init 0 (.fn 7) (some "S")).1 := by
  have h := c8_double_mutation_idempotent SelfState.init
    (by simp [storeWf, objKeysNodup, SelfState.init])
    (by simp [objKeysNodup, SelfState.init])
  exact ⟨h.1 true, h.2.2.2.2.2.2.2.2.1 0 7 (some "S")⟩

/-- C8 counterexample: `setValidators` called twice in succession with the
same ARRAY argument `[v]` on a fresh control. `composeValidators` returns a
new composed closure on each call, and `isEqual` compares stored functions by
reference, so the second call replaces the stored validator again — a second
state transition, refuting the claim for array-valued `setValidators`. -/
theorem c8_setValidators_array_not_idempotent :
    (setValidators (setValidators SelfState.init 0 (.fnList [7]) (some "S")).1
      (setValidators SelfState.init 0 (.fnList [7]) (some "S")).2
      (.fnList [7]) (some "S")).1 ≠
      (setValidators SelfState.init 0 (.fnList [7]) (some "S")).1 ∧
    (setValidators SelfState.init 0 (.fnList [7]) (some "S")).1 ≠
      SelfState.init := by
  exact ⟨by decide, by decide⟩

theorem errObjEqb_lookup_right (a b : ErrObj) (h : errObjEqb a b = true)
    (k : Key) (v : ErrVal) (hv : objLookup b k = some v) :
    objLookup a k = some v := by
  rw [errObjEqb] at h
  obtain ⟨w, hw1, hw2⟩ := assocEqBy_lookup_right _ a b h k v hv
  have hwv : w = v := by simpa using hw2
  rw [hw1, hwv]

theorem errObjEqb_lookup_left (a b : ErrObj) (h : errObjEqb a b = true)
    (k : Key) (v : ErrVal) (hv : objLookup a k = some v) :
    ∃ w, objLookup b k = some w := by
  rw [errObjEqb] at h
  obtain ⟨w, hw1, _⟩ :=
    assocEqBy_lookup_left _ a b h k v (mem_of_objLookup a k v hv)
  exact ⟨w, hw1⟩

theorem patchErrors_single_set (s : SelfState) (S : SourceId) (k : Key)
    (v : JsVal) :
    ∃ p1, objLookup
        (patchErrors s (.errs [(k, some v)]) (some S)).errorsStore S =
          some p1 ∧
      objLookup p1 k = some (some v) := by
  cases hl : objLookup s.errorsStore S with
  | some ex =>
    have hstep : patchErrors s (.errs [(k, some v)]) (some S) =
        patchErrorsTail s (objSet ex k (some v)) S := by
      simp [patchErrors, hl, patchErrorsApply]
    rw [hstep]
    have hq : objLookup (objSet ex k (some v)) k = some (some v) :=
      objLookup_objSet_self ex k (some v)
    have hqe : (objSet ex k (some v)).isEmpty = false :=
      objSet_isEmpty ex k (some v)
    by_cases hg : storeEqb s.errorsStore
        (objSet s.errorsStore S (objSet ex k (some v))) = true
    · have hres : patchErrorsTail s (objSet ex k (some v)) S = s := by
        simp [patchErrorsTail, hqe, hg]
      rw [hres]
      obtain ⟨w, hw1, hw2⟩ := assocEqBy_lookup_right errObjEqb
        s.errorsStore (objSet s.errorsStore S (objSet ex k (some v))) hg S
        (objSet ex k (some v))
        (objLookup_objSet_self s.errorsStore S (objSet ex k (some v)))
      rw [hl] at hw1
      injection hw1 with hw1
      subst hw1
      refine ⟨ex, hl, ?_⟩
      exact errObjEqb_lookup_right ex (objSet ex k (some v)) hw2 k (some v) hq
    · have hres : patchErrorsTail s (objSet ex k (some v)) S =
          { s with errorsStore :=
              objSet s.errorsStore S (objSet ex k (some v)) } := by
        simp [patchErrorsTail, hqe, hg]
      rw [hres]
      exact ⟨objSet ex k (some v),
        objLookup_objSet_self s.errorsStore S (objSet ex k (some v)), hq⟩
  | none =>
    have hstep : patchErrors s (.errs [(k, some v)]) (some S) =
        patchErrorsTail s [(k, some v)] S := by
      simp [patchErrors, hl]
    rw [hstep]
    by_cases hg : storeEqb s.errorsStore
        (objSet s.errorsStore S [(k, some v)]) = true
    · exfalso
      obtain ⟨w, hw1, _⟩ := assocEqBy_lookup_right errObjEqb s.errorsStore
        (objSet s.errorsStore S [(k, some v)]) hg S [(k, some v)]
        (objLookup_objSet_self s.errorsStore S [(k, some v)])
      rw [hl] at hw1
      exact Option.noConfusion hw1
    · have hres : patchErrorsTail s [(k, some v)] S =
          { s with errorsStore :=
              objSet s.errorsStore S [(k, some v)] } := by
        simp [patchErrorsTail, hg]
      rw [hres]
      exact ⟨[(k, some v)],
        objLookup_objSet_self s.errorsStore S [(k, some v)],
        by simp [objLookup]⟩

/-- C9: `patchErrors({ a: 1 }, { source: S })` followed by
`patchErrors({ a: null }, { source: S })` on any control and any source `S`:
whatever partition source `S` holds afterwards lacks key `"a"`, and if
removing `"a"` emptied the partition then the store has no entry for `S` at
all — stated as: any surviving partition is non-empty and without `"a"`. -/
theorem c9_patchErrors_merge_law (s : SelfState) (S : SourceId) (p : ErrObj)
    (h : objLookup
        (patchErrors
          (patchErrors s (.errs [("a", some (.vNum 1))]) (some S))
          (.errs [("a", none)]) (some S)).errorsStore S = some p) :
    objLookup p "a" = none ∧ p ≠ [] := by
  obtain ⟨p1, hp1, hpa⟩ := patchErrors_single_set s S "a" (.vNum 1)
  set s1 := patchErrors s (.errs [("a", some (.vNum 1))]) (some S) with hs1
  have hstep : patchErrors s1 (.errs [("a", none)]) (some S) =
      patchErrorsTail s1 (objDelete p1 "a") S := by
    simp [patchErrors, hp1, patchErrorsApply]
  rw [hstep] at h
  have hp2a : objLookup (objDelete p1 "a") "a" = none :=
    objLookup_objDelete_self p1 "a"
  by_cases hemp : (objDelete p1 "a").isEmpty = true
  · by_cases hg : storeEqb s1.errorsStore
        (objDelete s1.errorsStore S) = true
    · exfalso
      obtain ⟨w, hw1, _⟩ := assocEqBy_lookup_left errObjEqb s1.errorsStore
        (objDelete s1.errorsStore S) hg S p1
        (mem_of_objLookup _ _ _ hp1)
      rw [objLookup_objDelete_self] at hw1
      exact Option.noConfusion hw1
    · have hres : patchErrorsTail s1 (objDelete p1 "a") S =
          { s1 with errorsStore := objDelete s1.errorsStore S } := by
        simp [patchErrorsTail, hemp, hg]
      rw [hres] at h
      have h2 : objLookup (objDelete s1.errorsStore S) S = some p := h
      rw [objLookup_objDelete_self] at h2
      exact Option.noConfusion h2
  · by_cases hg : storeEqb s1.errorsStore
        (objSet s1.errorsStore S (objDelete p1 "a")) = true
    · exfalso
      obtain ⟨w, hw1, hw2⟩ := assocEqBy_lookup_left errObjEqb s1.errorsStore
        (objSet s1.errorsStore S (objDelete p1 "a")) hg S p1
        (mem_of_objLookup _ _ _ hp1)
      rw [objLookup_objSet_self] at hw1
      injection hw1 with hw1
      subst hw1
      obtain ⟨w2, hw3⟩ := errObjEqb_lookup_left p1 (objDelete p1 "a") hw2
        "a" (some (.vNum 1)) hpa
      rw [hp2a] at hw3
      exact Option.noConfusion hw3
    · have hres : patchErrorsTail s1 (objDelete p1 "a") S =
          { s1 with errorsStore :=
              objSet s1.errorsStore S (objDelete p1 "a") } := by
        simp [patchErrorsTail, hemp, hg]
      rw [hres] at h
      have h2 : objLookup (objSet s1.errorsStore S (objDelete p1 "a")) S =
          some p := h
      rw [objLookup_objSet_self] at h2
      injection h2 with h2
      subst h2
      refine ⟨hp2a, fun hnil => ?_⟩
      rw [hnil] at hemp
      exact hemp rfl

/-- Witness for C9 at a concrete input: a control whose source `"S"` already
holds the partition `{ b: 2 }`; after the two patches the partition survives
as `{ b: 2 }`, without `"a"` and non-empty. -/
theorem c9_patchErrors_merge_law_witness :
    objLookup [("b", (some (JsVal.vNum 2) : ErrVal))] "a" = none ∧
    ([("b", (some (JsVal.vNum 2) : ErrVal))] : ErrObj) ≠ [] :=
  c9_patchErrors_merge_law
    { SelfState.init with errorsStore := [("S", [("b", some (.vNum 2))])] }
    "S" [("b", some (.vNum 2))] (by decide)

end SolidForms
